import Mathlib

/-!
Verification development for the gemini-obsidian-helper repository.

The definitions below are a shallow embedding of the TypeScript sources:

* `Json`, `parseJsonL`, `renderJson` model the JSON values handled by
  `JSON.parse` / `JSON.stringify` (numbers are modelled as integers, which
  covers every number appearing in the tool-call protocol).
* `extractToolCalls` embeds `LlmProcessorService.extractToolCalls`
  (src/modules/llm/domain/interfaces/llm-service.interface.ts).
* `processUserMessage` embeds `LlmProcessorService.processUserMessage`.
* `executeTool` embeds `ToolsRegistryService.executeTool`.
* `extractJsonArray` embeds `GoogleGenaiAdapter.extractJsonArray`.
* The scheduling state machine embeds `SchedulingService` and
  `RecurringEventsService`
  (src/modules/recurring-events/infrastructure/services/scheduling.service.ts).
* `createFileExecute` and `modifyFileExecute` embed the handlers of
  src/modules/tools/infrastructure/services/file-tools.service.ts.
-/

namespace GeminiHelper

/-- JSON values, as produced by the JavaScript JSON.parse.  Numbers are
modelled as integers; object fields keep their textual order. -/
inductive Json where
  | null : Json
  | bool : Bool → Json
  | num : Int → Json
  | str : String → Json
  | arr : List Json → Json
  | obj : List (String × Json) → Json
deriving Repr

mutual

def Json.beq : Json → Json → Bool
  | .null, .null => true
  | .bool a, .bool b => a == b
  | .num a, .num b => a == b
  | .str a, .str b => a == b
  | .arr a, .arr b => Json.beqList a b
  | .obj a, .obj b => Json.beqFields a b
  | _, _ => false

def Json.beqList : List Json → List Json → Bool
  | [], [] => true
  | a :: as, b :: bs => Json.beq a b && Json.beqList as bs
  | _, _ => false

def Json.beqFields : List (String × Json) → List (String × Json) → Bool
  | [], [] => true
  | (k, a) :: as, (l, b) :: bs => k == l && Json.beq a b && Json.beqFields as bs
  | _, _ => false

end

instance : BEq Json := ⟨Json.beq⟩

mutual

theorem Json.beq_refl : (j : Json) → Json.beq j j = true
  | .null => rfl
  | .bool b => by simp [Json.beq]
  | .num n => by simp [Json.beq]
  | .str s => by simp [Json.beq]
  | .arr xs => by simp [Json.beq]; exact Json.beqList_refl xs
  | .obj kvs => by simp [Json.beq]; exact Json.beqFields_refl kvs

theorem Json.beqList_refl : (l : List Json) → Json.beqList l l = true
  | [] => rfl
  | a :: as => by simp [Json.beqList]; exact ⟨Json.beq_refl a, Json.beqList_refl as⟩

theorem Json.beqFields_refl : (l : List (String × Json)) → Json.beqFields l l = true
  | [] => rfl
  | (k, a) :: as => by
      simp [Json.beqFields]
      exact ⟨Json.beq_refl a, Json.beqFields_refl as⟩

end

mutual

theorem Json.eq_of_beq : {a b : Json} → Json.beq a b = true → a = b
  | .null, .null, _ => rfl
  | .bool x, .bool y, h => by simp [Json.beq] at h; simp [h]
  | .num x, .num y, h => by simp [Json.beq] at h; simp [h]
  | .str x, .str y, h => by simp [Json.beq] at h; simp [h]
  | .arr xs, .arr ys, h => by
      simp [Json.beq] at h
      have := Json.eqList_of_beq (a := xs) (b := ys) h
      simp [this]
  | .obj xs, .obj ys, h => by
      simp [Json.beq] at h
      have := Json.eqFields_of_beq (a := xs) (b := ys) h
      simp [this]
  | .null, .bool _, h => by simp [Json.beq] at h
  | .null, .num _, h => by simp [Json.beq] at h
  | .null, .str _, h => by simp [Json.beq] at h
  | .null, .arr _, h => by simp [Json.beq] at h
  | .null, .obj _, h => by simp [Json.beq] at h
  | .bool _, .null, h => by simp [Json.beq] at h
  | .bool _, .num _, h => by simp [Json.beq] at h
  | .bool _, .str _, h => by simp [Json.beq] at h
  | .bool _, .arr _, h => by simp [Json.beq] at h
  | .bool _, .obj _, h => by simp [Json.beq] at h
  | .num _, .null, h => by simp [Json.beq] at h
  | .num _, .bool _, h => by simp [Json.beq] at h
  | .num _, .str _, h => by simp [Json.beq] at h
  | .num _, .arr _, h => by simp [Json.beq] at h
  | .num _, .obj _, h => by simp [Json.beq] at h
  | .str _, .null, h => by simp [Json.beq] at h
  | .str _, .bool _, h => by simp [Json.beq] at h
  | .str _, .num _, h => by simp [Json.beq] at h
  | .str _, .arr _, h => by simp [Json.beq] at h
  | .str _, .obj _, h => by simp [Json.beq] at h
  | .arr _, .null, h => by simp [Json.beq] at h
  | .arr _, .bool _, h => by simp [Json.beq] at h
  | .arr _, .num _, h => by simp [Json.beq] at h
  | .arr _, .str _, h => by simp [Json.beq] at h
  | .arr _, .obj _, h => by simp [Json.beq] at h
  | .obj _, .null, h => by simp [Json.beq] at h
  | .obj _, .bool _, h => by simp [Json.beq] at h
  | .obj _, .num _, h => by simp [Json.beq] at h
  | .obj _, .str _, h => by simp [Json.beq] at h
  | .obj _, .arr _, h => by simp [Json.beq] at h

theorem Json.eqList_of_beq : {a b : List Json} → Json.beqList a b = true → a = b
  | [], [], _ => rfl
  | x :: xs, y :: ys, h => by
      simp [Json.beqList] at h
      have h1 := Json.eq_of_beq (a := x) (b := y) h.1
      have h2 := Json.eqList_of_beq (a := xs) (b := ys) h.2
      simp [h1, h2]
  | [], _ :: _, h => by simp [Json.beqList] at h
  | _ :: _, [], h => by simp [Json.beqList] at h

theorem Json.eqFields_of_beq :
    {a b : List (String × Json)} → Json.beqFields a b = true → a = b
  | [], [], _ => rfl
  | (k, x) :: xs, (l, y) :: ys, h => by
      simp [Json.beqFields] at h
      have h1 := Json.eq_of_beq (a := x) (b := y) h.1.2
      have h2 := Json.eqFields_of_beq (a := xs) (b := ys) h.2
      simp [h.1.1, h1, h2]
  | [], _ :: _, h => by simp [Json.beqFields] at h
  | _ :: _, [], h => by simp [Json.beqFields] at h

end

instance : DecidableEq Json := fun a b =>
  if h : Json.beq a b = true then
    isTrue (Json.eq_of_beq h)
  else
    isFalse (fun he => h (he ▸ Json.beq_refl a))

/-- The whitespace characters accepted between JSON tokens by JSON.parse. -/
def jsonWs (c : Char) : Bool :=
  c == ' ' || c == '\t' || c == '\n' || c == '\r'

/-- Whitespace recognized by the JavaScript String.prototype.trim. -/
def jsWs (c : Char) : Bool :=
  jsonWs c || c == Char.ofNat 11 || c == Char.ofNat 12 || c == Char.ofNat 160 ||
  c == Char.ofNat 0x1680 ||
  (0x2000 ≤ c.toNat && c.toNat ≤ 0x200A) ||
  c == Char.ofNat 0x2028 || c == Char.ofNat 0x2029 ||
  c == Char.ofNat 0x202F || c == Char.ofNat 0x205F ||
  c == Char.ofNat 0x3000 || c == Char.ofNat 0xFEFF

/-- JavaScript text.trim() on a character list. -/
def jsTrim (cs : List Char) : List Char :=
  ((cs.dropWhile jsWs).reverse.dropWhile jsWs).reverse

def isJsonDigit (c : Char) : Bool := 48 ≤ c.toNat && c.toNat ≤ 57

/-- The value of a hexadecimal digit, read off its character code. -/
def hexDigitVal (c : Char) : Option Nat :=
  let n := c.toNat
  if 48 ≤ n && n ≤ 57 then some (n - 48)
  else if 97 ≤ n && n ≤ 102 then some (n - 87)
  else if 65 ≤ n && n ≤ 70 then some (n - 55)
  else none

/-- Decoding of a single-character JSON string escape. -/
def decodeEscape (e : Char) : Option Char :=
  if e = '"' then some '"'
  else if e = '\\' then some '\\'
  else if e = '/' then some '/'
  else if e = 'b' then some (Char.ofNat 8)
  else if e = 'f' then some (Char.ofNat 12)
  else if e = 'n' then some '\n'
  else if e = 'r' then some '\r'
  else if e = 't' then some '\t'
  else none

/-- Body of a JSON string literal after the opening quote: returns the decoded
characters and the input following the closing quote. -/
def parseStringBody : List Char → Option (List Char × List Char)
  | [] => none
  | c :: rest =>
      if c = '"' then some ([], rest)
      else if c = '\\' then
        match rest with
        | 'u' :: more =>
            match more with
            | h1 :: h2 :: h3 :: h4 :: rest2 =>
                match hexDigitVal h1, hexDigitVal h2, hexDigitVal h3, hexDigitVal h4 with
                | some a, some b, some x, some d =>
                    match parseStringBody rest2 with
                    | some (s, r) =>
                        some (Char.ofNat (((a * 16 + b) * 16 + x) * 16 + d) :: s, r)
                    | none => none
                | _, _, _, _ => none
            | _ => none
        | e :: rest2 =>
            match decodeEscape e with
            | some d =>
                match parseStringBody rest2 with
                | some (s, r) => some (d :: s, r)
                | none => none
            | none => none
        | [] => none
      else if c.toNat < 32 then none
      else
        match parseStringBody rest with
        | some (s, r) => some (c :: s, r)
        | none => none

/-- Decimal accumulation of a digit run. -/
def digitsToNat (acc : Nat) : List Char → Nat
  | [] => acc
  | d :: ds => digitsToNat (acc * 10 + (d.toNat - 48)) ds

/-- Digits of a JSON integer (leading-zero rule of JSON numbers). -/
def parseDigits (cs : List Char) : Option (Nat × List Char) :=
  match cs.span isJsonDigit with
  | (ds, rest) =>
      match ds with
      | [] => none
      | '0' :: [] => some (0, rest)
      | '0' :: _ => none
      | _ => some (digitsToNat 0 ds, rest)

/-- Exact literal match at the head of the input, returning the rest. -/
def stripLit : List Char → List Char → Option (List Char)
  | [], cs => some cs
  | _ :: _, [] => none
  | l :: ls, c :: cs => if c = l then stripLit ls cs else none

mutual

/-- One JSON value; fuel bounds the nesting recursion. -/
def parseValue : Nat → List Char → Option (Json × List Char)
  | 0, _ => none
  | fuel + 1, cs =>
      match cs.dropWhile jsonWs with
      | [] => none
      | c :: rest =>
          if c = 'n' then (stripLit "ull".data rest).map (fun r => (.null, r))
          else if c = 't' then (stripLit "rue".data rest).map (fun r => (.bool true, r))
          else if c = 'f' then (stripLit "alse".data rest).map (fun r => (.bool false, r))
          else if c = '"' then
            match parseStringBody rest with
            | some (s, r) => some (.str (String.mk s), r)
            | none => none
          else if c = '-' then
            match parseDigits rest with
            | some (n, r) => some (.num (-(n : Int)), r)
            | none => none
          else if c = '[' then parseArrItems fuel (rest.dropWhile jsonWs) true
          else if c = Char.ofNat 123 then parseObjItems fuel (rest.dropWhile jsonWs) true
          else if isJsonDigit c then
            match parseDigits (c :: rest) with
            | some (n, r) => some (.num (n : Int), r)
            | none => none
          else none

/-- Items of a JSON array after the opening bracket (leading whitespace already
consumed); `first` is true before the first item. -/
def parseArrItems : Nat → List Char → Bool → Option (Json × List Char)
  | 0, _, _ => none
  | _ + 1, ']' :: rest, true => some (.arr [], rest)
  | fuel + 1, cs, _ =>
      match parseValue fuel cs with
      | some (v, r) =>
          match r.dropWhile jsonWs with
          | ',' :: r2 =>
              match parseArrItems fuel (r2.dropWhile jsonWs) false with
              | some (.arr vs, r3) => some (.arr (v :: vs), r3)
              | _ => none
          | ']' :: r2 => some (.arr [v], r2)
          | _ => none
      | none => none

/-- Members of a JSON object after the opening brace (leading whitespace
already consumed); `first` is true before the first member. -/
def parseObjItems : Nat → List Char → Bool → Option (Json × List Char)
  | 0, _, _ => none
  | fuel + 1, cs, first =>
      match cs with
      | [] => none
      | c :: rest =>
          if first && c = Char.ofNat 125 then some (.obj [], rest)
          else if c = '"' then
            match parseStringBody rest with
            | some (k, r) =>
                match r.dropWhile jsonWs with
                | ':' :: r2 =>
                    match parseValue fuel r2 with
                    | some (v, r3) =>
                        match r3.dropWhile jsonWs with
                        | ',' :: r4 =>
                            match parseObjItems fuel (r4.dropWhile jsonWs) false with
                            | some (.obj ms, r5) =>
                                some (.obj ((String.mk k, v) :: ms), r5)
                            | _ => none
                        | d :: r4 =>
                            if d = Char.ofNat 125 then
                              some (.obj [(String.mk k, v)], r4)
                            else none
                        | _ => none
                    | none => none
                | _ => none
            | none => none
          else none

end

/-- JSON.parse on a character list: the whole input must be one JSON value
surrounded only by whitespace. -/
def parseJsonL (cs : List Char) : Option Json :=
  match parseValue (cs.length + 16) cs with
  | some (v, rest) => if rest.dropWhile jsonWs = [] then some v else none
  | none => none

/-- JSON.parse on a string. -/
def parseJson (s : String) : Option Json :=
  parseJsonL s.data

def hexDigitChar (n : Nat) : Char :=
  if n < 10 then Char.ofNat ('0'.toNat + n) else Char.ofNat ('a'.toNat + n - 10)

/-- Escaping of one character inside a JSON string literal, as done by
JSON.stringify. -/
def escapeChar (c : Char) : List Char :=
  if c = '"' then ['\\', '"']
  else if c = '\\' then ['\\', '\\']
  else if c = '\n' then ['\\', 'n']
  else if c = '\r' then ['\\', 'r']
  else if c = '\t' then ['\\', 't']
  else if c = Char.ofNat 8 then ['\\', 'b']
  else if c = Char.ofNat 12 then ['\\', 'f']
  else if c.toNat < 32 then
    ['\\', 'u', '0', '0', hexDigitChar (c.toNat / 16), hexDigitChar (c.toNat % 16)]
  else [c]

def renderString (s : String) : List Char :=
  '"' :: (s.data.foldr (fun c acc => escapeChar c ++ acc) ['"'])

mutual

/-- JSON.stringify (compact form, no indentation), as a character list. -/
def renderJsonL : Json → List Char
  | .null => "null".data
  | .bool b => (if b then "true" else "false").data
  | .num n => (toString n).data
  | .str s => renderString s
  | .arr xs => '[' :: renderJsonArr xs ++ [']']
  | .obj kvs => Char.ofNat 123 :: renderJsonObj kvs ++ [Char.ofNat 125]

def renderJsonArr : List Json → List Char
  | [] => []
  | [x] => renderJsonL x
  | x :: xs => renderJsonL x ++ ',' :: renderJsonArr xs

def renderJsonObj : List (String × Json) → List Char
  | [] => []
  | [(k, v)] => renderString k ++ ':' :: renderJsonL v
  | (k, v) :: kvs => renderString k ++ ':' :: renderJsonL v ++ ',' :: renderJsonObj kvs

end

/-- JSON.stringify as a string. -/
def renderJson (j : Json) : String :=
  String.mk (renderJsonL j)

/-- JavaScript truthiness of a JSON value. -/
def jsTruthy : Json → Bool
  | .null => false
  | .bool b => b
  | .num n => !(n == 0)
  | .str s => !(s == "")
  | .arr _ => true
  | .obj _ => true

def lookupLast (kvs : List (String × Json)) (k : String) : Option Json :=
  kvs.foldl (fun acc kv => if kv.1 == k then some kv.2 else acc) none

/-- Property read on a JSON value: members of objects (later duplicate keys
override earlier ones, as after JSON.parse); any other receiver yields
undefined, modelled as none.  Reading a property of null throws in JavaScript
and is modelled separately at the one place it can happen. -/
def jGet : Json → String → Option Json
  | .obj kvs, k => lookupLast kvs k
  | _, _ => none

/-- The typeof x being object, as JavaScript reports it. -/
def typeofObject : Json → Bool
  | .null => true
  | .arr _ => true
  | .obj _ => true
  | _ => false

structure ToolCall where
  tool : Json
  params : Json
deriving Repr, DecidableEq

/-- The expression item.data or else item.params. -/
def dataOrParams (item : Json) : Option Json :=
  match jGet item "data" with
  | some v => if jsTruthy v then some v else jGet item "params"
  | none => jGet item "params"

/-- One item of the directly parsed array in extractToolCalls: kept when it is
a truthy object whose tool field and data-or-params field are both truthy. -/
def callOfItemDirect (item : Json) : Option ToolCall :=
  if jsTruthy item && typeofObject item then
    match jGet item "tool", dataOrParams item with
    | some t, some p => if jsTruthy t && jsTruthy p then some ⟨t, p⟩ else none
    | _, _ => none
  else none

/-- Item processing in the regex-fallback branch of extractToolCalls: there is
no object guard there, so reading tool on a null item throws; the Bool result
flags that the loop aborted with an exception. -/
def scanItems : List Json → List ToolCall → (List ToolCall × Bool)
  | [], acc => (acc, false)
  | .null :: _, acc => (acc, true)
  | item :: rest, acc =>
      let keep : Option ToolCall :=
        match jGet item "tool", dataOrParams item with
        | some t, some p => if jsTruthy t && jsTruthy p then some ⟨t, p⟩ else none
        | _, _ => none
      match keep with
      | some c => scanItems rest (acc ++ [c])
      | none => scanItems rest acc

/-- Split at the first occurrence of the character: the segment before it and
the rest after it. -/
def splitAtChar (c : Char) : List Char → Option (List Char × List Char)
  | [] => none
  | d :: rest =>
      if d = c then some ([], rest)
      else
        match splitAtChar c rest with
        | some (pre, post) => some (d :: pre, post)
        | none => none

/-- All matches of the non-greedy bracket regex over the text, in scan order:
each match runs from an open bracket to the nearest following close bracket,
and scanning resumes after the match. -/
def regexArrMatches : Nat → List Char → List (List Char)
  | 0, _ => []
  | fuel + 1, cs =>
      match splitAtChar '[' cs with
      | none => []
      | some (_, afterOpen) =>
          match splitAtChar ']' afterOpen with
          | none => []
          | some (between, afterClose) =>
              ('[' :: between ++ [']']) :: regexArrMatches fuel afterClose

/-- The loop over regex matches in extractToolCalls; the Bool result is true
when the loop returned early with the accumulated calls. -/
def regexPhase : List (List Char) → List ToolCall → (List ToolCall × Bool)
  | [], acc => (acc, false)
  | m :: rest, acc =>
      match parseJsonL m with
      | some (.arr items) =>
          let r := scanItems items acc
          if !r.2 && r.1.length > 0 then (r.1, true)
          else regexPhase rest r.1
      | _ => regexPhase rest acc

def isWordChar (c : Char) : Bool :=
  ('a' ≤ c && c ≤ 'z') || ('A' ≤ c && c ≤ 'Z') || ('0' ≤ c && c ≤ '9') || c = '_'

/-- Scan for the closing legacy marker, accumulating the lazy content. -/
def findLegacyClose : List Char → List Char → Option (List Char × List Char)
  | [], _ => none
  | '[' :: '[' :: '/' :: 't' :: 'o' :: 'o' :: 'l' :: ']' :: ']' :: rest, acc =>
      some (acc.reverse, rest)
  | c :: rest, acc => findLegacyClose rest (c :: acc)

/-- Attempt of the legacy marker pattern at the current position: the tool
name word, the raw params text, and the input after the closing marker. -/
def tryLegacyAt (cs : List Char) : Option (String × List Char × List Char) :=
  match cs with
  | '[' :: '[' :: 't' :: 'o' :: 'o' :: 'l' :: ':' :: rest =>
      let nameRun := rest.takeWhile isWordChar
      let afterName := rest.dropWhile isWordChar
      if nameRun.length == 0 then none
      else
        match afterName with
        | ']' :: ']' :: rest2 =>
            match findLegacyClose rest2 [] with
            | some (content, rest3) => some (String.mk nameRun, content, rest3)
            | none => none
        | _ => none
  | _ => none

/-- All matches of the legacy marker regex, in scan order. -/
def legacyScan : Nat → List Char → List (String × List Char)
  | 0, _ => []
  | fuel + 1, cs =>
      match cs with
      | [] => []
      | _ :: rest =>
          match tryLegacyAt cs with
          | some (name, ps, rest2) => (name, ps) :: legacyScan fuel rest2
          | none => legacyScan fuel rest

/-- The legacy-marker fallback of extractToolCalls: each marker whose trimmed
params text parses as JSON yields one call. -/
def legacyCalls (cs : List Char) : List ToolCall :=
  (legacyScan (cs.length + 1) cs).filterMap fun nm =>
    match parseJsonL (jsTrim nm.2) with
    | some p => some (⟨Json.str nm.1, p⟩ : ToolCall)
    | none => none

/-- The substring from the first open bracket through the last close bracket,
when the indexOf and lastIndexOf checks of the source succeed. -/
def bracketSlice (cs : List Char) : Option (List Char) :=
  if 2 ≤ (((cs.dropWhile (fun c => !(c == '['))).reverse.dropWhile
      (fun c => !(c == ']'))).reverse).length
  then some (((cs.dropWhile (fun c => !(c == '['))).reverse.dropWhile
      (fun c => !(c == ']'))).reverse)
  else none

/-- LlmProcessorService.extractToolCalls. -/
def extractToolCalls (text : String) : List ToolCall :=
  let cleaned := jsTrim text.data
  let cleaned2 :=
    match bracketSlice cleaned with
    | some v => v
    | none => cleaned
  match parseJsonL cleaned2 with
  | some (.arr items) => items.filterMap callOfItemDirect
  | some _ => []
  | none =>
      let r := regexPhase (regexArrMatches (text.data.length + 1) text.data) []
      if r.2 then r.1
      else r.1 ++ legacyCalls text.data

def registeredToolNames : List String :=
  ["create_file", "modify_file", "delete_file", "reply", "finish"]

/-- ToolsRegistryService.hasToolHandler after registerBuiltInTools. -/
def hasToolHandler (name : String) : Bool := registeredToolNames.contains name

/-- The validation filter applied to extracted tool calls in
processUserMessage: tool must be a non-empty string naming a registered
handler, and params must be a truthy value of object type. -/
def validToolCall (c : ToolCall) : Bool :=
  (match c.tool with
   | .str s => !(s == "")
   | _ => false)
  && (jsTruthy c.params && typeofObject c.params)
  && (match c.tool with
      | .str s => hasToolHandler s
      | _ => false)

structure LlmResponse where
  toolCalls : List ToolCall
  error : Option String
deriving Repr, DecidableEq

def replyCall (msg : String) : ToolCall :=
  ⟨Json.str "reply", Json.obj [("message", Json.str msg)]⟩

def llmFailureMessage : String := "Failed to generate content from LLM. Please try again."

def llmFailureError : String := "Failed to generate content from LLM"

def apologyMessage : String :=
  "I encountered an issue processing your request. Please try again with clearer instructions."

/-- LlmProcessorService.processUserMessage as a function of the adapter
response (none models a null response; some t models a response whose text
field normalizes to t).  History bookkeeping and prompt construction do not
influence any decision made here and are omitted. -/
def processUserMessage (response : Option String) : LlmResponse :=
  match response with
  | none => ⟨[replyCall llmFailureMessage], some llmFailureError⟩
  | some responseText =>
      let toolCalls := extractToolCalls responseText
      if toolCalls.length > 0 then
        let validTC := toolCalls.filter validToolCall
        if validTC.length > 0 then ⟨validTC, none⟩
        else ⟨[replyCall apologyMessage], none⟩
      else ⟨[replyCall responseText], none⟩

def squote : String := String.mk [Char.ofNat 39]

/-- A tool handler; a thrown error is modelled by the error branch carrying
the error message text, and the returned record is a JSON object. -/
def ToolHandler := Json → Except String Json

def errObj (msg : String) : Json :=
  Json.obj [("status", Json.str "error"), ("message", Json.str msg)]

/-- ToolsRegistryService.executeTool over the registry map. -/
def executeTool (tools : List (String × ToolHandler)) (name : String) (params : Json) : Json :=
  match tools.lookup name with
  | none => errObj ("Tool " ++ squote ++ name ++ squote ++ " not found")
  | some handler =>
      match handler params with
      | .ok r => r
      | .error e =>
          errObj ("Error executing tool " ++ squote ++ name ++ squote ++ ": " ++ e)

/-- Association map write with the replace-in-place semantics of Map.set. -/
def mapSet {α : Type} (m : List (String × α)) (k : String) (v : α) : List (String × α) :=
  match m with
  | [] => [(k, v)]
  | (k0, v0) :: rest => if k0 == k then (k, v) :: rest else (k0, v0) :: mapSet rest k v

/-- In-memory model of the file system touched by the tool handlers:
absolute path to content. -/
abbrev FsState := List (String × String)

def fsExists (fs : FsState) (p : String) : Bool := (List.lookup p fs).isSome

def fsWrite (fs : FsState) (p c : String) : FsState := mapSet fs p c

def isAbsolutePath (p : String) : Bool :=
  match p.data with
  | c :: _ => c = '/'
  | [] => false

/-- path.join of the base directory and a relative path (the normalization
done by node is irrelevant to these claims). -/
def pathJoin (a b : String) : String := a ++ "/" ++ b

/-- FilePathService.resolveFilePath with the configured base path. -/
def resolveFilePath (basePath : String) (filePath : String) : String :=
  if isAbsolutePath filePath then filePath else pathJoin basePath filePath

def jTruthyOpt : Option Json → Bool
  | some v => jsTruthy v
  | none => false

/-- CreateFileToolHandler.execute.  The final catch-all models the TypeError
thrown by the path and fs calls when a truthy non-string argument is given;
it reaches the catch clause of the source and becomes an error result. -/
def createFileExecute (basePath : String) (params : Json) (fs : FsState) : Json × FsState :=
  let fp := jGet params "file_path"
  let ct := jGet params "content"
  if !(jTruthyOpt fp) || !(jTruthyOpt ct) then
    (errObj "Missing required parameters: file_path and content", fs)
  else
    match fp, ct with
    | some (.str p), some (.str c) =>
        let abs := resolveFilePath basePath p
        (Json.obj [("status", Json.str "success"),
                   ("message", Json.str ("File created successfully: " ++ p)),
                   ("file_path", Json.str p),
                   ("absolute_path", Json.str abs)],
         fsWrite fs abs c)
    | _, _ => (errObj "Error creating file: invalid argument type", fs)

/-- ModifyFileToolHandler.execute. -/
def modifyFileExecute (basePath : String) (params : Json) (fs : FsState) : Json × FsState :=
  let fp := jGet params "file_path"
  let ct := jGet params "content"
  if !(jTruthyOpt fp) || ct.isNone then
    (errObj "Missing required parameters: file_path and content", fs)
  else
    match fp, ct with
    | some (.str p), some (.str c) =>
        let abs := resolveFilePath basePath p
        if !(fsExists fs abs) then
          (errObj ("File not found: " ++ p ++ " (" ++ abs ++ ")"), fs)
        else
          (Json.obj [("status", Json.str "success"),
                     ("message", Json.str ("File modified successfully: " ++ p)),
                     ("file_path", Json.str p),
                     ("absolute_path", Json.str abs)],
           fsWrite fs abs c)
    | _, _ => (errObj "Error modifying file: invalid argument type", fs)

def asciiLower (c : Char) : Char :=
  if 'A' ≤ c && c ≤ 'Z' then Char.ofNat (c.toNat + 32) else c

def lowerL (cs : List Char) : List Char := cs.map asciiLower

/-- Case-insensitive match of a literal pattern at the head of the input,
returning the rest of the input. -/
def ciStrip : List Char → List Char → Option (List Char)
  | [], cs => some cs
  | _, [] => none
  | p :: ps, c :: cs => if asciiLower c = asciiLower p then ciStrip ps cs else none

/-- The time capture of the schedule patterns: one or two digits, a colon,
two digits, then end of input. -/
def timeMatchEnd (cs : List Char) : Bool :=
  match cs with
  | [a, b, ':', c, d] => isJsonDigit a && isJsonDigit b && isJsonDigit c && isJsonDigit d
  | [a, ':', c, d] => isJsonDigit a && isJsonDigit c && isJsonDigit d
  | _ => false

/-- The dailyPattern of SchedulingService.addJob; yields the time capture. -/
def matchDailyDsl (s : String) : Option String :=
  match ciStrip "daily at ".data s.data with
  | some rest => if timeMatchEnd rest then some (String.mk rest) else none
  | none => none

/-- The weeklyPattern of SchedulingService.addJob; yields the weekday and
time captures. -/
def matchWeeklyDsl (s : String) : Option (String × String) :=
  match ciStrip "every ".data s.data with
  | some rest =>
      let run := rest.takeWhile isWordChar
      let after := rest.dropWhile isWordChar
      if run.length == 0 then none
      else
        match ciStrip " at ".data after with
        | some rest2 =>
            if timeMatchEnd rest2 then some (String.mk run, String.mk rest2) else none
        | none => none
  | none => none

/-- The unit alternation of the interval patterns. -/
def unitAltMatch (cs : List Char) : Bool :=
  let l := String.mk (lowerL cs)
  l == "minute" || l == "minutes" || l == "hour" || l == "hours" || l == "day" || l == "days"

/-- The intervalPattern of SchedulingService.addJob; yields the count and the
unit capture with its original spelling. -/
def matchIntervalDsl (s : String) : Option (Int × String) :=
  match ciStrip "every ".data s.data with
  | some rest =>
      let ds := rest.takeWhile isJsonDigit
      let after := rest.dropWhile isJsonDigit
      if ds.length == 0 then none
      else
        match after with
        | ' ' :: rest2 =>
            if unitAltMatch rest2 then some (((digitsToNat 0 ds : Nat) : Int), String.mk rest2)
            else none
        | _ => none
  | none => none

/-- The loose weekly test of determineEventType. -/
def testWeeklyLoose (s : String) : Bool :=
  match ciStrip "every ".data s.data with
  | some rest =>
      let run := rest.takeWhile isWordChar
      let after := rest.dropWhile isWordChar
      !(run.length == 0) && (ciStrip " at".data after).isSome
  | none => false

/-- State of SchedulingService: jobs holds the handle most recently stored
per event id; live holds every armed timer not yet cancelled, tagged with the
event id its callback fires with; nextTimer numbers the timers. -/
structure SchedState where
  jobs : List (String × Nat)
  live : List (Nat × String)
  nextTimer : Nat
deriving Repr, DecidableEq

def emptySched : SchedState := ⟨[], [], 0⟩

/-- Association map delete with the semantics of Map.delete. -/
def mapDelete {α : Type} (m : List (String × α)) (k : String) : List (String × α) :=
  match m with
  | [] => []
  | (k0, v0) :: rest => if k0 == k then rest else (k0, v0) :: mapDelete rest k

/-- SchedulingService.unschedule: cancel and drop the stored job, when any. -/
def unschedule (s : SchedState) (eventId : String) : SchedState :=
  match List.lookup eventId s.jobs with
  | none => s
  | some t =>
      { s with jobs := mapDelete s.jobs eventId,
               live := s.live.filter (fun x => !(x.1 == t)) }

/-- SchedulingService.scheduleJob: cancel the existing job with this id, then
arm a new timer and store it. -/
def scheduleJob (s : SchedState) (eventId : String) : SchedState :=
  let s1 := unschedule s eventId
  { jobs := mapSet s1.jobs eventId s1.nextTimer,
    live := s1.live ++ [(s1.nextTimer, eventId)],
    nextTimer := s1.nextTimer + 1 }

/-- SchedulingService.scheduleDaily (the recurrence rule contents do not
affect the job bookkeeping this model tracks). -/
def scheduleDaily (_timeStr : String) (eventId : String) (s : SchedState) : SchedState :=
  scheduleJob s eventId

def weekdayMap : List (String × Nat) :=
  [("sunday", 0), ("monday", 1), ("tuesday", 2), ("wednesday", 3),
   ("thursday", 4), ("friday", 5), ("saturday", 6)]

/-- SchedulingService.scheduleWeekly: an unknown weekday name is logged and
nothing is scheduled. -/
def scheduleWeekly (weekdayStr _timeStr : String) (eventId : String) (s : SchedState) : SchedState :=
  match List.lookup (String.mk (lowerL weekdayStr.data)) weekdayMap with
  | none => s
  | some _ => scheduleJob s eventId

/-- The unit dispatch of SchedulingService.scheduleInterval. -/
def intervalMs (interval : Int) (unit : String) : Option Int :=
  let u := String.mk (lowerL unit.data)
  if u == "minutes" || u == "minute" || u == "mins" || u == "min" then
    some (interval * 60 * 1000)
  else if u == "hours" || u == "hour" then some (interval * 60 * 60 * 1000)
  else if u == "days" || u == "day" then some (interval * 24 * 60 * 60 * 1000)
  else none

/-- SchedulingService.scheduleInterval: arms a new setInterval timer and
stores its handle in the jobs map.  The source does not cancel a previously
stored job for the same id first. -/
def scheduleInterval (interval : Int) (unit : String) (eventId : String) (s : SchedState) :
    SchedState :=
  match intervalMs interval unit with
  | none => s
  | some _ =>
      { jobs := mapSet s.jobs eventId s.nextTimer,
        live := s.live ++ [(s.nextTimer, eventId)],
        nextTimer := s.nextTimer + 1 }

/-- SchedulingService.addJob: the DSL dispatch over the three patterns. -/
def addJob (scheduleDsl : String) (eventId : String) (s : SchedState) : Bool × SchedState :=
  match matchDailyDsl scheduleDsl with
  | some timeStr => (true, scheduleDaily timeStr eventId s)
  | none =>
      match matchWeeklyDsl scheduleDsl with
      | some (weekdayStr, timeStr) => (true, scheduleWeekly weekdayStr timeStr eventId s)
      | none =>
          match matchIntervalDsl scheduleDsl with
          | some (n, unit) => (true, scheduleInterval n unit eventId s)
          | none => (false, s)

/-- The live timers whose callback fires with the given event id. -/
def liveTimersFor (s : SchedState) (eventId : String) : List Nat :=
  (s.live.filter (fun x => x.2 == eventId)).map (fun x => x.1)

inductive EventType where
  | daily
  | weekly
  | interval
deriving Repr, DecidableEq

/-- The fields stored by the Event entity. -/
structure EventRec where
  type : EventType
  time : Option String := none
  weekday : Option String := none
  interval : Option Int := none
  unit : Option String := none
  message : String
  isGlobal : Bool := false
  taskPath : Option String := none
deriving Repr, DecidableEq

/-- RecurringEventsService.determineEventType. -/
def determineEventType (schedule : String) : EventType :=
  if (ciStrip "daily at".data schedule.data).isSome then .daily
  else if testWeeklyLoose schedule then .weekly
  else if (matchIntervalDsl schedule).isSome then .interval
  else .daily

/-- schedule.replace of the leading daily-at prefix including its trailing
space; the input is returned unchanged when the pattern does not match. -/
def dailyReplace (schedule : String) : String :=
  match ciStrip "daily at ".data schedule.data with
  | some rest => String.mk rest
  | none => schedule

/-- The main event record built by createEventsFromTask: the switch on the
detected type fills the type-specific fields. -/
def deriveMainEvent (schedule message relativePath : String) : EventRec :=
  match determineEventType schedule with
  | .daily =>
      { type := .daily, time := some (dailyReplace schedule),
        message := message, taskPath := some relativePath }
  | .weekly =>
      match matchWeeklyDsl schedule with
      | some (wd, tm) =>
          { type := .weekly, weekday := some wd, time := some tm,
            message := message, taskPath := some relativePath }
      | none => { type := .weekly, message := message, taskPath := some relativePath }
  | .interval =>
      match matchIntervalDsl schedule with
      | some (n, u) =>
          { type := .interval, interval := some n, unit := some u,
            message := message, taskPath := some relativePath }
      | none => { type := .interval, message := message, taskPath := some relativePath }

/-- RecurringEventsService.scheduleEvent: dispatch on the event type with the
truthiness guards of the source. -/
def scheduleEvent (eventId : String) (ev : EventRec) (s : SchedState) : SchedState :=
  match ev.type with
  | .daily =>
      match ev.time with
      | some t => if t == "" then s else scheduleDaily t eventId s
      | none => s
  | .weekly =>
      match ev.weekday, ev.time with
      | some w, some t => if w == "" || t == "" then s else scheduleWeekly w t eventId s
      | _, _ => s
  | .interval =>
      match ev.interval, ev.unit with
      | some n, some u => if u == "" then s else scheduleInterval n u eventId s
      | _, _ => s

/-- Combined in-memory state of RecurringEventsService together with its
SchedulingService: the events map, the scheduledFileEventIds set, the
scheduler state, and the uuid supply modelled as a counter. -/
structure EngineState where
  events : List (String × EventRec)
  scheduledFileEventIds : List String
  sched : SchedState
  uuidCounter : Nat
deriving Repr, DecidableEq

def emptyEngine : EngineState := ⟨[], [], emptySched, 0⟩

structure TaskDetails where
  schedule : String
  message : String
  reminders : Option Json
deriving Repr, DecidableEq

def titleOf (fm : List (String × Json)) : String :=
  match lookupLast fm "title" with
  | some (.str t) => if t == "" then "Task reminder" else t
  | _ => "Task reminder"

def messageOf (fm : List (String × Json)) : String :=
  match lookupLast fm "message" with
  | some (.str m) => if m == "" then titleOf fm else m
  | _ => titleOf fm

/-- RecurringEventsService.extractTaskDetails.  The schedule, message and
title values are strings in every configuration in scope (a non-string value
would be coerced by the later regex tests, which no claim depends on). -/
def extractTaskDetails (fm : List (String × Json)) : Option TaskDetails :=
  match lookupLast fm "schedule" with
  | some (.str sch) =>
      if sch == "" then none
      else
        some { schedule := sch, message := messageOf fm,
               reminders := lookupLast fm "reminders" }
  | _ => none

def natToString (n : Nat) : String := Nat.repr n

/-- One pass of the removal loop in unscheduleFileEvents. -/
def removeFileEvent (st : EngineState) (eventId : String) : EngineState :=
  { st with
    events := mapDelete st.events eventId,
    scheduledFileEventIds := st.scheduledFileEventIds.filter (fun i => !(i == eventId)),
    sched := unschedule st.sched eventId }

/-- RecurringEventsService.unscheduleFileEvents: remove and unschedule every
event whose taskPath equals the given path. -/
def unscheduleFileEvents (relativePath : String) (st : EngineState) : EngineState :=
  let ids := (st.events.filter (fun e => e.2.taskPath == some relativePath)).map (fun e => e.1)
  ids.foldl removeFileEvent st

/-- RecurringEventsService.createEventsFromTask; uuidv4 is modelled by the
state counter. -/
def createEventsFromTask (td : TaskDetails) (relativePath : String) (st : EngineState) :
    EngineState :=
  let eventId := "task_" ++ natToString st.uuidCounter
  let eventData := deriveMainEvent td.schedule td.message relativePath
  let st1 : EngineState :=
    { events := mapSet st.events eventId eventData,
      scheduledFileEventIds := st.scheduledFileEventIds ++ [eventId],
      sched := scheduleEvent eventId eventData st.sched,
      uuidCounter := st.uuidCounter + 1 }
  match td.reminders with
  | some (.arr rs) =>
      rs.foldl (fun acc _ =>
        let reminderId := "reminder_" ++ natToString acc.uuidCounter
        let reminderData := { eventData with message := "Reminder: " ++ td.message }
        { events := mapSet acc.events reminderId reminderData,
          scheduledFileEventIds := acc.scheduledFileEventIds ++ [reminderId],
          sched := scheduleEvent reminderId reminderData acc.sched,
          uuidCounter := acc.uuidCounter + 1 }) st1
  | _ => st1

/-- The vault collaborator: file contents by relative path, the listing of
the tasks directory, its existence, and the parsed frontmatter of a content
string.  The frontmatter function models the composition of
extractFrontmatter (the regex between the delimiter lines) with the external
YAML parser; it is kept abstract because no claim depends on YAML syntax. -/
structure VaultEnv where
  files : List (String × String)
  taskFiles : List String
  hasTasksDir : Bool
  frontmatter : String → Option (List (String × Json))

def vaultFileExists (env : VaultEnv) (p : String) : Bool := (List.lookup p env.files).isSome

def vaultReadFile (env : VaultEnv) (p : String) : Option String := List.lookup p env.files

/-- relativePath.endsWith of the markdown suffix. -/
def endsWithMd (p : String) : Bool :=
  match p.data.reverse with
  | 'd' :: 'm' :: '.' :: _ => true
  | _ => false

/-- RecurringEventsService.processVaultFileEvent: unschedule the previous
events of the path, then re-derive from the current file content. -/
def processVaultFileEvent (env : VaultEnv) (relativePath : String) (st : EngineState) :
    EngineState :=
  let st1 := unscheduleFileEvents relativePath st
  if !(endsWithMd relativePath) || !(vaultFileExists env relativePath) then st1
  else
    match vaultReadFile env relativePath with
    | none => st1
    | some content =>
        if content == "" then st1
        else
          match env.frontmatter content with
          | none => st1
          | some fm =>
              match extractTaskDetails fm with
              | none => st1
              | some td => createEventsFromTask td relativePath st1

/-- RecurringEventsService.validateEventData. -/
def validateEventData (data : Json) : Bool :=
  jsTruthy data &&
  jTruthyOpt (jGet data "type") &&
  jTruthyOpt (jGet data "message") &&
  (match jGet data "type" with
   | some (.str t) =>
       if t == "daily" then jTruthyOpt (jGet data "time")
       else if t == "weekly" then
         jTruthyOpt (jGet data "weekday") && jTruthyOpt (jGet data "time")
       else if t == "interval" then
         !(jGet data "interval").isNone && jTruthyOpt (jGet data "unit")
       else false
   | _ => false)

def strFieldOpt (data : Json) (k : String) : Option String :=
  match jGet data k with
  | some (.str s) => some s
  | _ => none

def intFieldOpt (data : Json) (k : String) : Option Int :=
  match jGet data k with
  | some (.num n) => some n
  | _ => none

/-- The Event constructor applied to a global config entry (with isGlobal
forced to true); field values are strings and numbers in every configuration
in scope. -/
def eventOfJson (data : Json) : EventRec :=
  { type :=
      match jGet data "type" with
      | some (.str t) => if t == "weekly" then .weekly else if t == "interval" then .interval else .daily
      | _ => .daily,
    time := strFieldOpt data "time",
    weekday := strFieldOpt data "weekday",
    interval := intFieldOpt data "interval",
    unit := strFieldOpt data "unit",
    message := (match jGet data "message" with | some (.str m) => m | _ => ""),
    isGlobal := true,
    taskPath := strFieldOpt data "taskPath" }

/-- One entry of loadGlobalEvents: the id comes from the entry when truthy
(ids are strings in every configuration in scope), else a fresh uuid; the
entry is stored only when validateEventData accepts it. -/
def loadGlobalEvent (st : EngineState) (data : Json) : EngineState :=
  let idc : String × Nat :=
    match jGet data "id" with
    | some (.str s) =>
        if s == "" then ("uuid_" ++ natToString st.uuidCounter, st.uuidCounter + 1)
        else (s, st.uuidCounter)
    | _ => ("uuid_" ++ natToString st.uuidCounter, st.uuidCounter + 1)
  if validateEventData data then
    { st with events := mapSet st.events idc.1 (eventOfJson data), uuidCounter := idc.2 }
  else { st with uuidCounter := idc.2 }

/-- RecurringEventsService.loadGlobalEvents, given the parsed content of the
global config file (none models a missing or unreadable file, and a
non-array content is rejected). -/
def loadGlobalEvents (globalData : Option Json) (st : EngineState) : EngineState :=
  match globalData with
  | some (.arr entries) => entries.foldl loadGlobalEvent st
  | _ => st

def tasksDirRelative : String := "03 - Tasks"

/-- RecurringEventsService.loadVaultTasks: the watcher registration does not
change the modelled state; every markdown file of the tasks directory
listing is processed in order. -/
def loadVaultTasks (env : VaultEnv) (st : EngineState) : EngineState :=
  if !env.hasTasksDir then st
  else
    (env.taskFiles.filter endsWithMd).foldl
      (fun acc f => processVaultFileEvent env (pathJoin tasksDirRelative f) acc) st

/-- RecurringEventsService.loadAndScheduleAll: clear the events map and the
scheduledFileEventIds set (the scheduler job map is not touched by the
clear), load and schedule global events, then load the vault tasks. -/
def loadAndScheduleAll (env : VaultEnv) (globalData : Option Json) (st : EngineState) :
    EngineState :=
  let st1 : EngineState := { st with events := [], scheduledFileEventIds := [] }
  let st2 := loadGlobalEvents globalData st1
  let st3 := st2.events.foldl
    (fun acc e =>
      if e.2.isGlobal then { acc with sched := scheduleEvent e.1 e.2 acc.sched } else acc) st2
  loadVaultTasks env st3

def headIs (c : Char) (cs : List Char) : Bool :=
  match cs with
  | d :: _ => d == c
  | [] => false

def lastIs (c : Char) (cs : List Char) : Bool := headIs c cs.reverse

/-- First attempt of GoogleGenaiAdapter.extractJsonArray: the trimmed text
that already starts and ends with brackets and parses as JSON. -/
def adapterAttempt1 (cleaned : List Char) : Option (List Char) :=
  if headIs '[' cleaned && lastIs ']' cleaned && (parseJsonL cleaned).isSome then some cleaned
  else none

/-- Second attempt: the substring from the first open bracket through the
last close bracket, when it parses as JSON. -/
def adapterAttempt2 (cleaned : List Char) : Option (List Char) :=
  match bracketSlice cleaned with
  | some v => if (parseJsonL v).isSome then some v else none
  | none => none

/-- The scan over regex matches in extractJsonArray: the first match parsing
to a non-empty JSON array wins. -/
def firstNonemptyArrayMatch : List (List Char) → Option (List Char)
  | [] => none
  | m :: rest =>
      match parseJsonL m with
      | some (.arr items) =>
          if items.length > 0 then some m else firstNonemptyArrayMatch rest
      | _ => firstNonemptyArrayMatch rest

def adapterAttempt3 (cleaned : List Char) : Option (List Char) :=
  firstNonemptyArrayMatch (regexArrMatches (cleaned.length + 1) cleaned)

/-- The synthetic reply tool call wrapping a message, as built by the
fallback of extractJsonArray. -/
def fallbackValue (msg : String) : Json :=
  Json.arr [Json.obj [("tool", Json.str "reply"),
                      ("data", Json.obj [("message", Json.str msg)])]]

/-- GoogleGenaiAdapter.extractJsonArray. -/
def extractJsonArray (text : String) : String :=
  let cleaned := jsTrim text.data
  match adapterAttempt1 cleaned with
  | some v => String.mk v
  | none =>
      match adapterAttempt2 cleaned with
      | some v => String.mk v
      | none =>
          match adapterAttempt3 cleaned with
          | some v => String.mk v
          | none => renderJson (fallbackValue (String.mk (cleaned.take 1000)))

/-- No attempt of extractJsonArray finds a parseable array in the text. -/
abbrev noParseableArray (text : String) : Prop :=
  adapterAttempt1 (jsTrim text.data) = none ∧
  adapterAttempt2 (jsTrim text.data) = none ∧
  adapterAttempt3 (jsTrim text.data) = none

/-- The event ids whose event records carry the given task path, in map
order; this is the id list walked by unscheduleFileEvents. -/
def eventIdsForPath (relativePath : String) (st : EngineState) : List String :=
  (st.events.filter (fun e => e.2.taskPath == some relativePath)).map (fun e => e.1)

/-- Concrete vault for the rebuild scenario: one task file whose frontmatter
carries a daily schedule. -/
def demoVault : VaultEnv :=
  { files := [("03 - Tasks/t.md", "c")],
    taskFiles := ["t.md"],
    hasTasksDir := true,
    frontmatter := fun content =>
      if content == "c" then some [("schedule", Json.str "daily at 09:00")] else none }

/-- The engine state after the initial derivation of the task file. -/
def demoState1 : EngineState := processVaultFileEvent demoVault "03 - Tasks/t.md" emptyEngine

/-- The engine state after the full daily rebuild. -/
def demoState2 : EngineState := loadAndScheduleAll demoVault none demoState1

/-- Task details with one reminder entry, for the replace-on-change
scenario. -/
def c6Details : TaskDetails :=
  { schedule := "daily at 09:00", message := "M", reminders := some (Json.arr [Json.null]) }

/-- A state in which the path has previously produced a main event and one
reminder event. -/
def c6PrevState : EngineState := createEventsFromTask c6Details "03 - Tasks/t.md" emptyEngine

/-- The vault after the task file was deleted. -/
def c6EnvDeleted : VaultEnv :=
  { files := [], taskFiles := [], hasTasksDir := true, frontmatter := fun _ => none }

theorem dropWhile_append_cons {α : Type} (p : α → Bool) (l t : List α) (b : α)
    (hb : p b = false) :
    List.dropWhile p (l ++ b :: t) = List.dropWhile p l ++ b :: t := by
  induction l with
  | nil => simp [List.dropWhile_cons, hb]
  | cons a l ih =>
      by_cases h : p a
      · simp [List.dropWhile_cons, h, ih]
      · simp [List.dropWhile_cons, h]

theorem dropWhile_append_all {α : Type} (p : α → Bool) (l x : List α)
    (hl : ∀ c ∈ l, p c = true) :
    List.dropWhile p (l ++ x) = List.dropWhile p x := by
  induction l with
  | nil => simp
  | cons a l ih =>
      simp only [List.cons_append, List.dropWhile_cons, hl a (by simp), if_true]
      exact ih (fun c hc => hl c (by simp [hc]))

/-- C1: re-registering a fixed-interval job under an id that already has a
live interval job leaves two live timers for that id, because
scheduleInterval overwrites the stored handle without cancelling the
previous timer; the first timer then survives even a later unschedule.  The
cancel-before-arm discipline does hold for the daily and weekly kinds, which
go through scheduleJob. -/
theorem scheduleInterval_duplicate_live_timers :
    liveTimersFor
      (scheduleInterval 5 "minutes" "e1" (scheduleInterval 5 "minutes" "e1" emptySched)) "e1"
      = [0, 1] ∧
    liveTimersFor
      (unschedule
        (scheduleInterval 5 "minutes" "e1" (scheduleInterval 5 "minutes" "e1" emptySched))
        "e1") "e1" = [0] ∧
    liveTimersFor (scheduleDaily "09:00" "e1" (scheduleDaily "09:00" "e1" emptySched)) "e1"
      = [1] := by
  decide

/-- C3: executeTool never throws: an unregistered name yields the not-found
error result, and a throwing handler yields an error-status result whose
message contains the thrown error text. -/
theorem executeTool_error_handling (tools : List (String × ToolHandler))
    (name : String) (params : Json) :
    (List.lookup name tools = none →
      executeTool tools name params =
        errObj ("Tool " ++ squote ++ name ++ squote ++ " not found")) ∧
    (∀ handler e, List.lookup name tools = some handler → handler params = .error e →
      jGet (executeTool tools name params) "status" = some (Json.str "error") ∧
      ∃ msg, jGet (executeTool tools name params) "message" = some (Json.str msg) ∧
        List.IsInfix e.data msg.data) := by
  constructor
  · intro h
    simp [executeTool, h]
  · intro handler e hl he
    have hrun : executeTool tools name params =
        errObj ("Error executing tool " ++ squote ++ name ++ squote ++ ": " ++ e) := by
      simp [executeTool, hl, he]
    refine ⟨by rw [hrun]; rfl, "Error executing tool " ++ squote ++ name ++ squote ++ ": " ++ e,
      by rw [hrun]; rfl, ?_⟩
    exact ⟨("Error executing tool " ++ squote ++ name ++ squote ++ ": ").data, [],
      by simp [String.data_append]⟩

/-- C3 witness: a registry with one throwing handler, executed at its own
name and at a missing name. -/
theorem executeTool_error_handling_witness :
    executeTool [("boom", fun _ => Except.error "kaboom")] "missing" Json.null =
      errObj ("Tool " ++ squote ++ "missing" ++ squote ++ " not found") ∧
    jGet (executeTool [("boom", fun _ => Except.error "kaboom")] "boom" Json.null) "status" =
      some (Json.str "error") := by
  constructor
  · exact (executeTool_error_handling [("boom", fun _ => Except.error "kaboom")]
      "missing" Json.null).1 rfl
  · exact ((executeTool_error_handling [("boom", fun _ => Except.error "kaboom")]
      "boom" Json.null).2 (fun _ => Except.error "kaboom") "kaboom" rfl rfl).1

/-- C9: a DSL string matching none of the three addJob patterns is rejected:
addJob returns false and the scheduler state is unchanged, so no job is
armed; scheduleWeekly with a weekday name outside the weekday map likewise
returns with the state unchanged. -/
theorem addJob_bad_input (dsl eventId : String) (s : SchedState) :
    (matchDailyDsl dsl = none → matchWeeklyDsl dsl = none → matchIntervalDsl dsl = none →
      addJob dsl eventId s = (false, s)) ∧
    (∀ wd t, List.lookup (String.mk (lowerL wd.data)) weekdayMap = none →
      scheduleWeekly wd t eventId s = s) := by
  constructor
  · intro h1 h2 h3
    simp [addJob, h1, h2, h3]
  · intro wd t h
    simp [scheduleWeekly, h]

/-- C9 witness: a nonsense DSL string and an invalid weekday name leave the
empty scheduler unchanged. -/
theorem addJob_bad_input_witness :
    addJob "whenever" "e" emptySched = (false, emptySched) ∧
    scheduleWeekly "blah" "9:00" "e" emptySched = emptySched := by
  constructor
  · exact (addJob_bad_input "whenever" "e" emptySched).1 (by decide) (by decide) (by decide)
  · exact (addJob_bad_input "whenever" "e" emptySched).2 "blah" "9:00" (by decide)

/-- C10: create_file returns an error result whenever the content parameter
is the empty string (the truthiness check treats it like a missing
parameter) and leaves the file system unchanged, while modify_file on an
existing file accepts empty content, succeeds, and overwrites the file to
empty. -/
theorem file_tools_empty_content (basePath : String) (params : Json) (fs : FsState) :
    (jGet params "content" = some (Json.str "") →
      jGet (createFileExecute basePath params fs).1 "status" = some (Json.str "error") ∧
      (createFileExecute basePath params fs).2 = fs) ∧
    (∀ p, jGet params "content" = some (Json.str "") →
      jGet params "file_path" = some (Json.str p) → ¬(p = "") →
      fsExists fs (resolveFilePath basePath p) = true →
      jGet (modifyFileExecute basePath params fs).1 "status" = some (Json.str "success") ∧
      (modifyFileExecute basePath params fs).2 =
        fsWrite fs (resolveFilePath basePath p) "") := by
  constructor
  · intro hct
    have hrun : createFileExecute basePath params fs =
        (errObj "Missing required parameters: file_path and content", fs) := by
      simp [createFileExecute, hct, jTruthyOpt, jsTruthy]
    rw [hrun]
    exact ⟨rfl, rfl⟩
  · intro p hct hfp hp hex
    have h1 : jTruthyOpt (jGet params "file_path") = true := by
      simp [hfp, jTruthyOpt, jsTruthy, hp]
    have hrun : modifyFileExecute basePath params fs =
        (Json.obj [("status", Json.str "success"),
                   ("message", Json.str ("File modified successfully: " ++ p)),
                   ("file_path", Json.str p),
                   ("absolute_path", Json.str (resolveFilePath basePath p))],
         fsWrite fs (resolveFilePath basePath p) "") := by
      simp [modifyFileExecute, hct, hfp, h1, hex, jTruthyOpt, jsTruthy, hp]
    rw [hrun]
    exact ⟨rfl, rfl⟩

/-- C10 witness: a params object with empty content and an existing target
file. -/
theorem file_tools_empty_content_witness :
    jGet (createFileExecute "/v"
      (Json.obj [("file_path", Json.str "a.md"), ("content", Json.str "")])
      [("/v/a.md", "old")]).1 "status" = some (Json.str "error") ∧
    (modifyFileExecute "/v"
      (Json.obj [("file_path", Json.str "a.md"), ("content", Json.str "")])
      [("/v/a.md", "old")]).2 = [("/v/a.md", "")] := by
  constructor
  · exact ((file_tools_empty_content "/v"
      (Json.obj [("file_path", Json.str "a.md"), ("content", Json.str "")])
      [("/v/a.md", "old")]).1 (by decide)).1
  · have h := ((file_tools_empty_content "/v"
      (Json.obj [("file_path", Json.str "a.md"), ("content", Json.str "")])
      [("/v/a.md", "old")]).2 "a.md" (by decide) (by decide) (by decide) (by decide)).2
    rw [h]
    decide

/-- C2: processUserMessage always returns a non-empty toolCalls list; a null
LLM response yields exactly one reply carrying the failure message; when the
extraction is non-empty but every extracted call fails validation, the
result is exactly one apologetic reply. -/
theorem processUserMessage_total (response : Option String) :
    ¬((processUserMessage response).toolCalls = []) ∧
    (response = none →
      (processUserMessage response).toolCalls = [replyCall llmFailureMessage]) ∧
    (∀ t, response = some t → ¬(extractToolCalls t = []) →
      (extractToolCalls t).filter validToolCall = [] →
      (processUserMessage response).toolCalls = [replyCall apologyMessage]) := by
  refine ⟨?_, ?_, ?_⟩
  · cases response with
    | none => simp [processUserMessage]
    | some t =>
        simp only [processUserMessage]
        by_cases h : (extractToolCalls t).length > 0
        · simp only [h, if_true]
          by_cases h2 : ((extractToolCalls t).filter validToolCall).length > 0
          · simp only [h2, if_true]
            exact List.ne_nil_of_length_pos h2
          · simp [h2]
        · simp [h]
  · intro h
    subst h
    simp [processUserMessage]
  · intro t ht hne hfil
    subst ht
    have hlen : (extractToolCalls t).length > 0 := List.length_pos.mpr hne
    simp [processUserMessage, hlen, hfil]

/-- C2 witness: the null response, and a response whose single extracted
call names an unregistered tool. -/
theorem processUserMessage_total_witness :
    (processUserMessage none).toolCalls = [replyCall llmFailureMessage] ∧
    (processUserMessage (some (renderJson (Json.arr
        [Json.obj [("tool", Json.str "nope"), ("data", Json.obj [("a", Json.num 1)])]])))).toolCalls
      = [replyCall apologyMessage] := by
  constructor
  · exact (processUserMessage_total none).2.1 rfl
  · exact (processUserMessage_total (some (renderJson (Json.arr
      [Json.obj [("tool", Json.str "nope"), ("data", Json.obj [("a", Json.num 1)])]])))).2.2
      _ rfl (by decide) (by decide)

theorem ciStrip_append (p q cs : List Char) :
    ciStrip (p ++ q) cs = (ciStrip p cs).bind (ciStrip q) := by
  induction p generalizing cs with
  | nil => simp [ciStrip]
  | cons a p ih =>
      cases cs with
      | nil => simp [ciStrip]
      | cons c cs =>
          simp only [List.cons_append, ciStrip]
          by_cases h : asciiLower c = asciiLower a
          · simp [h, ih]
          · simp [h]

theorem dailyReplace_of_no_match (schedule : String)
    (h : ciStrip "daily at".data schedule.data = none) :
    dailyReplace schedule = schedule := by
  have hs : ciStrip "daily at ".data schedule.data = none := by
    have he : "daily at ".data = "daily at".data ++ [' '] := by decide
    rw [he, ciStrip_append, h]
    rfl
  simp [dailyReplace, hs]

/-- C5 counterexample: the schedule string matches none of the three claimed
forms, so the claim predicts a DAILY event carrying the raw string as its
time, but derivation yields a WEEKLY event with neither weekday nor time
set. -/
theorem deriveMainEvent_counterexample :
    deriveMainEvent "every x at y" "m" "p" =
      { type := .weekly, message := "m", taskPath := some "p" } ∧
    ¬(EventType.weekly = EventType.daily) := by
  decide

/-- C5 amended: derivation applies the loose prefix tests in order.  A
daily-at prefix yields DAILY with the spaced prefix stripped from the raw
string as the time; otherwise an every-word-at prefix yields WEEKLY whose
weekday and time captures are filled exactly when the whole string matches
the strict weekly pattern and stay unset otherwise; otherwise a full
interval match yields INTERVAL with its count and unit; any other string
yields DAILY with the raw schedule string as the time. -/
theorem deriveMainEvent_spec (schedule message p : String) :
    ((ciStrip "daily at".data schedule.data).isSome = true →
      deriveMainEvent schedule message p =
        { type := .daily, time := some (dailyReplace schedule),
          message := message, taskPath := some p }) ∧
    (ciStrip "daily at".data schedule.data = none → testWeeklyLoose schedule = true →
      ∀ wd tm, matchWeeklyDsl schedule = some (wd, tm) →
        deriveMainEvent schedule message p =
          { type := .weekly, weekday := some wd, time := some tm,
            message := message, taskPath := some p }) ∧
    (ciStrip "daily at".data schedule.data = none → testWeeklyLoose schedule = true →
      matchWeeklyDsl schedule = none →
        deriveMainEvent schedule message p =
          { type := .weekly, message := message, taskPath := some p }) ∧
    (ciStrip "daily at".data schedule.data = none → testWeeklyLoose schedule = false →
      ∀ n u, matchIntervalDsl schedule = some (n, u) →
        deriveMainEvent schedule message p =
          { type := .interval, interval := some n, unit := some u,
            message := message, taskPath := some p }) ∧
    (ciStrip "daily at".data schedule.data = none → testWeeklyLoose schedule = false →
      matchIntervalDsl schedule = none →
        deriveMainEvent schedule message p =
          { type := .daily, time := some schedule,
            message := message, taskPath := some p }) := by
  refine ⟨?_, ?_, ?_, ?_, ?_⟩
  · intro hd
    simp [deriveMainEvent, determineEventType, hd]
  · intro hd hw wd tm hm
    simp [deriveMainEvent, determineEventType, hd, hw, hm]
  · intro hd hw hm
    simp [deriveMainEvent, determineEventType, hd, hw, hm]
  · intro hd hw n u hm
    simp [deriveMainEvent, determineEventType, hd, hw, hm]
  · intro hd hw hm
    simp [deriveMainEvent, determineEventType, hd, hw, hm,
      dailyReplace_of_no_match schedule hd]

/-- C5 witness: the four claimed forms at concrete inputs. -/
theorem deriveMainEvent_spec_witness :
    deriveMainEvent "daily at 09:30" "m" "p" =
      { type := .daily, time := some "09:30", message := "m", taskPath := some "p" } ∧
    deriveMainEvent "every friday at 18:00" "m" "p" =
      { type := .weekly, weekday := some "friday", time := some "18:00",
        message := "m", taskPath := some "p" } ∧
    deriveMainEvent "every 45 minutes" "m" "p" =
      { type := .interval, interval := some 45, unit := some "minutes",
        message := "m", taskPath := some "p" } ∧
    deriveMainEvent "tomorrow" "m" "p" =
      { type := .daily, time := some "tomorrow", message := "m", taskPath := some "p" } := by
  refine ⟨?_, ?_, ?_, ?_⟩
  · have h := (deriveMainEvent_spec "daily at 09:30" "m" "p").1 (by decide)
    rw [h]
    decide
  · exact (deriveMainEvent_spec "every friday at 18:00" "m" "p").2.1
      (by decide) (by decide) "friday" "18:00" (by decide)
  · exact (deriveMainEvent_spec "every 45 minutes" "m" "p").2.2.2.1
      (by decide) (by decide) 45 "minutes" (by decide)
  · exact (deriveMainEvent_spec "tomorrow" "m" "p").2.2.2.2
      (by decide) (by decide) (by decide)

/-- C8 counterexample: for an input with leading whitespace and no
extractable array, the synthesized reply message is the trimmed text, not
the original text, even though the input is far below the cap. -/
theorem extractJsonArray_counterexample :
    extractToolCalls (extractJsonArray " hello") =
      [⟨Json.str "reply", Json.obj [("message", Json.str "hello")]⟩] ∧
    ¬(("hello" : String) = " hello") := by
  decide

/-- C8 amended: whenever no parseable JSON array can be extracted from the
text, extractJsonArray returns the rendering of exactly one reply invocation
whose message is the trimmed original text capped at its first 1000
characters. -/
theorem extractJsonArray_fallback (text : String) (h : noParseableArray text) :
    extractJsonArray text =
      renderJson (fallbackValue (String.mk ((jsTrim text.data).take 1000))) := by
  obtain ⟨h1, h2, h3⟩ := h
  simp [extractJsonArray, h1, h2, h3]

/-- C8 witness: the fallback at a concrete input. -/
theorem extractJsonArray_fallback_witness :
    extractJsonArray " hello" =
      renderJson (fallbackValue (String.mk ((jsTrim " hello".data).take 1000))) :=
  extractJsonArray_fallback " hello" (by decide)

/-- C4: the full daily rebuild violates the removed-together invariant: the
events map is cleared before the vault re-scan, so unscheduleFileEvents
finds nothing and the job of the discarded event survives in the scheduler
with its live timer, keyed by an id that no longer names any event, while
the re-derived event gets a fresh id and a second job. -/
theorem loadAndScheduleAll_leaks_job :
    ¬(List.lookup "task_0" demoState1.events = none) ∧
    List.lookup "task_0" demoState2.events = none ∧
    List.lookup "task_0" demoState2.sched.jobs = some 0 ∧
    liveTimersFor demoState2.sched "task_0" = [0] ∧
    ¬(List.lookup "task_1" demoState2.events = none) := by
  decide

theorem lookup_eq_none_of_not_mem_keys {α : Type} (m : List (String × α)) (k : String)
    (h : ¬ k ∈ m.map Prod.fst) : List.lookup k m = none := by
  induction m with
  | nil => rfl
  | cons a m ih =>
      obtain ⟨k0, v0⟩ := a
      simp only [List.map_cons, List.mem_cons] at h
      push_neg at h
      have hb : (k == k0) = false := beq_eq_false_iff_ne.mpr h.1
      simpa [List.lookup_cons, hb] using ih h.2

theorem lookup_mapDelete_self {α : Type} (m : List (String × α)) (k : String)
    (h : (m.map Prod.fst).Nodup) : List.lookup k (mapDelete m k) = none := by
  induction m with
  | nil => rfl
  | cons a m ih =>
      obtain ⟨k0, v0⟩ := a
      simp only [List.map_cons, List.nodup_cons] at h
      by_cases hk : k0 = k
      · subst hk
        simpa [mapDelete] using lookup_eq_none_of_not_mem_keys m k0 h.1
      · have hb : (k0 == k) = false := beq_eq_false_iff_ne.mpr hk
        have hb2 : (k == k0) = false := beq_eq_false_iff_ne.mpr (Ne.symm hk)
        simpa [mapDelete, hb, List.lookup_cons, hb2] using ih h.2

theorem lookup_mapDelete_of_none {α : Type} (m : List (String × α)) (k k' : String)
    (h : List.lookup k m = none) : List.lookup k (mapDelete m k') = none := by
  induction m with
  | nil => rfl
  | cons a m ih =>
      obtain ⟨k0, v0⟩ := a
      by_cases hb : (k == k0) = true
      · simp [List.lookup_cons, hb] at h
      · have hb' : (k == k0) = false := by simpa using hb
        simp only [List.lookup_cons, hb'] at h
        by_cases hd : (k0 == k') = true
        · simpa [mapDelete, hd] using h
        · have hd' : (k0 == k') = false := by simpa using hd
          simpa [mapDelete, hd', List.lookup_cons, hb'] using ih h

theorem mapDelete_sublist {α : Type} (m : List (String × α)) (k : String) :
    (mapDelete m k).Sublist m := by
  induction m with
  | nil => simp [mapDelete]
  | cons a m ih =>
      obtain ⟨k0, v0⟩ := a
      by_cases hd : (k0 == k) = true
      · simp only [mapDelete, hd, if_true]
        exact List.sublist_cons_self _ _
      · have hd' : (k0 == k) = false := by simpa using hd
        simp only [mapDelete, hd', Bool.false_eq_true, if_false]
        exact ih.cons₂ _

theorem keys_nodup_mapDelete {α : Type} (m : List (String × α)) (k : String)
    (h : (m.map Prod.fst).Nodup) : ((mapDelete m k).map Prod.fst).Nodup :=
  ((mapDelete_sublist m k).map Prod.fst).nodup h

theorem lookup_isSome_of_mem {α : Type} {m : List (String × α)} {e : String × α}
    (h : e ∈ m) : (List.lookup e.1 m).isSome = true := by
  induction m with
  | nil => cases h
  | cons a m ih =>
      rcases List.mem_cons.mp h with h1 | h1
      · subst h1
        obtain ⟨k0, v0⟩ := e
        simp [List.lookup_cons]
      · obtain ⟨k0, v0⟩ := a
        by_cases hb : (e.1 == k0) = true
        · simp [List.lookup_cons, hb]
        · have hb' : (e.1 == k0) = false := by simpa using hb
          simpa [List.lookup_cons, hb'] using ih h1

theorem lookup_unschedule_self (s : SchedState) (k : String)
    (h : (s.jobs.map Prod.fst).Nodup) : List.lookup k (unschedule s k).jobs = none := by
  unfold unschedule
  cases hl : List.lookup k s.jobs with
  | none => simp [hl]
  | some t => simpa [hl] using lookup_mapDelete_self s.jobs k h

theorem lookup_unschedule_of_none (s : SchedState) (k k' : String)
    (h : List.lookup k s.jobs = none) : List.lookup k (unschedule s k').jobs = none := by
  unfold unschedule
  cases hl : List.lookup k' s.jobs with
  | none => simpa [hl] using h
  | some t => simpa [hl] using lookup_mapDelete_of_none s.jobs k k' h

theorem unschedule_keys_nodup (s : SchedState) (k : String)
    (h : (s.jobs.map Prod.fst).Nodup) : ((unschedule s k).jobs.map Prod.fst).Nodup := by
  unfold unschedule
  cases hl : List.lookup k s.jobs with
  | none => simpa [hl] using h
  | some t => simpa [hl] using keys_nodup_mapDelete s.jobs k h

theorem foldl_remove_jobs_none_preserve (ids : List String) (st : EngineState) (k : String)
    (h : List.lookup k st.sched.jobs = none) :
    List.lookup k (ids.foldl removeFileEvent st).sched.jobs = none := by
  induction ids generalizing st with
  | nil => exact h
  | cons i ids ih =>
      exact ih (removeFileEvent st i) (lookup_unschedule_of_none st.sched k i h)

theorem foldl_remove_jobs_none (ids : List String) (st : EngineState) (k : String)
    (hnd : (st.sched.jobs.map Prod.fst).Nodup) (hk : k ∈ ids) :
    List.lookup k (ids.foldl removeFileEvent st).sched.jobs = none := by
  induction ids generalizing st with
  | nil => cases hk
  | cons i ids ih =>
      rcases List.mem_cons.mp hk with h | h
      · subst h
        exact foldl_remove_jobs_none_preserve ids (removeFileEvent st k) k
          (lookup_unschedule_self st.sched k hnd)
      · exact ih (removeFileEvent st i) (unschedule_keys_nodup st.sched i hnd) h

theorem foldl_remove_events_none_preserve (ids : List String) (st : EngineState) (k : String)
    (h : List.lookup k st.events = none) :
    List.lookup k (ids.foldl removeFileEvent st).events = none := by
  induction ids generalizing st with
  | nil => exact h
  | cons i ids ih =>
      exact ih (removeFileEvent st i) (lookup_mapDelete_of_none st.events k i h)

theorem foldl_remove_events_none (ids : List String) (st : EngineState) (k : String)
    (hnd : (st.events.map Prod.fst).Nodup) (hk : k ∈ ids) :
    List.lookup k (ids.foldl removeFileEvent st).events = none := by
  induction ids generalizing st with
  | nil => cases hk
  | cons i ids ih =>
      rcases List.mem_cons.mp hk with h | h
      · subst h
        exact foldl_remove_events_none_preserve ids (removeFileEvent st k) k
          (lookup_mapDelete_self st.events k hnd)
      · exact ih (removeFileEvent st i) (keys_nodup_mapDelete st.events i hnd) h

theorem foldl_remove_events_sublist (ids : List String) (st : EngineState) :
    ((ids.foldl removeFileEvent st).events).Sublist st.events := by
  induction ids generalizing st with
  | nil => exact List.Sublist.refl _
  | cons i ids ih => exact (ih (removeFileEvent st i)).trans (mapDelete_sublist st.events i)

/-- C6: re-deriving for a path first removes every previously derived event
whose taskPath equals that path, unscheduling each of their jobs, and only
then derives fresh events from the current content: for a deleted file the
whole call equals the removal pass, after which no event of the path
remains and no removed id keeps a job.  In particular, a state whose path
previously produced a main event and one reminder loses both events and
both jobs when the file is gone, and nothing new is created. -/
theorem processVaultFileEvent_replace (env : VaultEnv) (p : String) (st : EngineState)
    (hev : (st.events.map Prod.fst).Nodup) (hjb : (st.sched.jobs.map Prod.fst).Nodup) :
    (vaultFileExists env p = false →
      processVaultFileEvent env p st = unscheduleFileEvents p st) ∧
    (∀ content fm td, endsWithMd p = true → vaultFileExists env p = true →
      vaultReadFile env p = some content → ¬(content = "") →
      env.frontmatter content = some fm → extractTaskDetails fm = some td →
      processVaultFileEvent env p st = createEventsFromTask td p (unscheduleFileEvents p st)) ∧
    (∀ id, id ∈ eventIdsForPath p st →
      List.lookup id (unscheduleFileEvents p st).events = none ∧
      List.lookup id (unscheduleFileEvents p st).sched.jobs = none) ∧
    (∀ e, e ∈ (unscheduleFileEvents p st).events → ¬(e.2.taskPath = some p)) ∧
    processVaultFileEvent c6EnvDeleted "03 - Tasks/t.md" c6PrevState =
      { events := [], scheduledFileEventIds := [],
        sched := { jobs := [], live := [], nextTimer := 2 }, uuidCounter := 2 } := by
  have hids : unscheduleFileEvents p st = (eventIdsForPath p st).foldl removeFileEvent st := rfl
  refine ⟨?_, ?_, ?_, ?_, by decide⟩
  · intro h
    simp [processVaultFileEvent, h]
  · intro content fm td hmd hex hrd hct hfm htd
    simp [processVaultFileEvent, hmd, hex, hrd, hct, hfm, htd]
  · intro id hid
    rw [hids]
    exact ⟨foldl_remove_events_none _ st id hev hid,
           foldl_remove_jobs_none _ st id hjb hid⟩
  · intro e he hp
    rw [hids] at he
    have hmem : e ∈ st.events := (foldl_remove_events_sublist _ st).subset he
    have hfil : e ∈ st.events.filter (fun e => e.2.taskPath == some p) :=
      List.mem_filter.mpr ⟨hmem, by simp [hp]⟩
    have hid : e.1 ∈ eventIdsForPath p st := List.mem_map_of_mem (fun e => e.1) hfil
    have hnone := foldl_remove_events_none (eventIdsForPath p st) st e.1 hev hid
    have hsome := lookup_isSome_of_mem he
    rw [hnone] at hsome
    cases hsome

/-- C6 witness: the deleted two-event scenario, through the theorem. -/
theorem processVaultFileEvent_replace_witness :
    processVaultFileEvent c6EnvDeleted "03 - Tasks/t.md" c6PrevState =
      unscheduleFileEvents "03 - Tasks/t.md" c6PrevState ∧
    List.lookup "task_0"
      (unscheduleFileEvents "03 - Tasks/t.md" c6PrevState).sched.jobs = none ∧
    List.lookup "reminder_1"
      (unscheduleFileEvents "03 - Tasks/t.md" c6PrevState).sched.jobs = none := by
  have h := processVaultFileEvent_replace c6EnvDeleted "03 - Tasks/t.md" c6PrevState
    (by decide) (by decide)
  exact ⟨h.1 (by decide), (h.2.2.1 "task_0" (by decide)).2, (h.2.2.1 "reminder_1" (by decide)).2⟩

theorem dropWhile_eq_self_of_head {α : Type} {cs : List α} {c : α} {p : α → Bool}
    (h : cs.head? = some c) (hc : p c = false) : cs.dropWhile p = cs := by
  cases cs with
  | nil => cases h
  | cons a t =>
      simp only [List.head?_cons, Option.some.injEq] at h
      subst h
      simp [List.dropWhile_cons, hc]

theorem head?_append_of_head {α : Type} {x : List α} {b : α} (y : List α)
    (hx : x.head? = some b) : (x ++ y).head? = some b := by
  cases x with
  | nil => cases hx
  | cons a t => simpa using hx

theorem dropWhile_append_of_head {α : Type} (p : α → Bool) (l x : List α) {b : α}
    (hx : x.head? = some b) (hb : p b = false) :
    List.dropWhile p (l ++ x) = List.dropWhile p l ++ x := by
  cases x with
  | nil => cases hx
  | cons c t =>
      simp only [List.head?_cons, Option.some.injEq] at hx
      subst hx
      exact dropWhile_append_cons p l t c hb

theorem jsTrim_eq_self {cs : List Char} {b e : Char}
    (hh : cs.head? = some b) (hb : jsWs b = false)
    (hl : cs.getLast? = some e) (he : jsWs e = false) : jsTrim cs = cs := by
  unfold jsTrim
  rw [dropWhile_eq_self_of_head hh hb]
  rw [dropWhile_eq_self_of_head (by rw [List.head?_reverse]; exact hl) he]
  exact List.reverse_reverse cs

theorem bracketSlice_eq_self {cs : List Char}
    (hh : cs.head? = some '[') (hl : cs.getLast? = some ']')
    (hlen : 2 ≤ cs.length) : bracketSlice cs = some cs := by
  unfold bracketSlice
  rw [dropWhile_eq_self_of_head hh (by decide)]
  rw [dropWhile_eq_self_of_head (by rw [List.head?_reverse]; exact hl) (by decide)]
  rw [List.reverse_reverse]
  simp [hlen]

/-- The well-formed tool-call items of the claim: truthy objects with truthy
tool and data-or-params fields. -/
def wellFormedItem (item : Json) : Bool :=
  jsTruthy item && typeofObject item &&
  jTruthyOpt (jGet item "tool") && jTruthyOpt (dataOrParams item)

/-- The invocation an element of the array contributes: its tool field and
its data-or-params field. -/
def callOfWellFormed (item : Json) : ToolCall :=
  ⟨(jGet item "tool").getD Json.null, (dataOrParams item).getD Json.null⟩

theorem filterMap_callOfItemDirect (items : List Json)
    (h : ∀ item ∈ items, wellFormedItem item = true) :
    items.filterMap callOfItemDirect = items.map callOfWellFormed := by
  induction items with
  | nil => rfl
  | cons it items ih =>
      have hit := h it (by simp)
      simp only [wellFormedItem, Bool.and_eq_true] at hit
      obtain ⟨⟨⟨h1, h2⟩, h3⟩, h4⟩ := hit
      have hsome : callOfItemDirect it = some (callOfWellFormed it) := by
        cases hjt : jGet it "tool" with
        | none => rw [hjt] at h3; cases h3
        | some t =>
            cases hjp : dataOrParams it with
            | none => rw [hjp] at h4; cases h4
            | some q =>
                rw [hjt] at h3
                rw [hjp] at h4
                simp only [jTruthyOpt] at h3 h4
                simp [callOfItemDirect, callOfWellFormed, h1, h2, h3, h4, hjt, hjp]
      simp only [List.filterMap_cons, hsome, List.map_cons]
      rw [ih (fun i hi => h i (by simp [hi]))]

/-- C7: for a text that is a valid JSON array of well-formed tool-call
objects, extraction yields exactly one invocation per array element whose
tool and data-or-params fields are taken unchanged; and the same array
wrapped in bracket-free prose before and after it yields exactly the same
invocations as the bare array. -/
theorem extractToolCalls_roundtrip (a pre post : String) (items : List Json)
    (hhead : a.data.head? = some '[') (hlast : a.data.getLast? = some ']')
    (hparse : parseJsonL a.data = some (Json.arr items))
    (hitems : ∀ item ∈ items, wellFormedItem item = true)
    (hpre : ∀ c ∈ pre.data, (c == '[') = false ∧ (c == ']') = false)
    (hpost : ∀ c ∈ post.data, (c == '[') = false ∧ (c == ']') = false) :
    extractToolCalls a = items.map callOfWellFormed ∧
    extractToolCalls (pre ++ a ++ post) = extractToolCalls a := by
  obtain ⟨t, hat⟩ : ∃ t, a.data = '[' :: t := by
    cases hcs : a.data with
    | nil => rw [hcs] at hhead; cases hhead
    | cons c t =>
        rw [hcs] at hhead
        simp only [List.head?_cons, Option.some.injEq] at hhead
        exact ⟨t, by rw [hhead]⟩
  have hlen : 2 ≤ a.data.length := by
    rw [hat]
    rw [hat] at hlast
    cases t with
    | nil => simp at hlast
    | cons c2 t2 => simp
  have hF1 : jsTrim a.data = a.data := jsTrim_eq_self hhead (by decide) hlast (by decide)
  have hF2 : bracketSlice a.data = some a.data := bracketSlice_eq_self hhead hlast hlen
  have hC1 : extractToolCalls a = items.filterMap callOfItemDirect := by
    simp only [extractToolCalls, hF1, hF2, hparse]
  have hconc1 : extractToolCalls a = items.map callOfWellFormed :=
    hC1.trans (filterMap_callOfItemDirect items hitems)
  refine ⟨hconc1, ?_⟩
  have hdata : (pre ++ a ++ post).data = pre.data ++ a.data ++ post.data := by
    rw [String.data_append, String.data_append]
  have hheadA : (a.data ++ post.data).head? = some '[' := head?_append_of_head _ hhead
  have h1 : List.dropWhile jsWs (pre.data ++ (a.data ++ post.data)) =
      pre.data.dropWhile jsWs ++ (a.data ++ post.data) :=
    dropWhile_append_of_head jsWs pre.data (a.data ++ post.data) hheadA (by decide)
  have hrevA : a.data.reverse.head? = some ']' := by rw [List.head?_reverse]; exact hlast
  have h2 : List.dropWhile jsWs
      (post.data.reverse ++ (a.data.reverse ++ (pre.data.dropWhile jsWs).reverse)) =
      post.data.reverse.dropWhile jsWs ++
        (a.data.reverse ++ (pre.data.dropWhile jsWs).reverse) :=
    dropWhile_append_of_head jsWs post.data.reverse _
      (head?_append_of_head _ hrevA) (by decide)
  have hW : jsTrim (pre.data ++ a.data ++ post.data) =
      pre.data.dropWhile jsWs ++ a.data ++ (post.data.reverse.dropWhile jsWs).reverse := by
    unfold jsTrim
    rw [List.append_assoc, h1]
    rw [show (pre.data.dropWhile jsWs ++ (a.data ++ post.data)).reverse =
        post.data.reverse ++ (a.data.reverse ++ (pre.data.dropWhile jsWs).reverse) by
      simp [List.reverse_append]]
    rw [h2]
    simp [List.reverse_append, List.append_assoc]
  have hPmem : ∀ c ∈ pre.data.dropWhile jsWs, (!(c == '[')) = true := by
    intro c hc
    have hcm : c ∈ pre.data := (List.dropWhile_sublist _).subset hc
    simp [(hpre c hcm).1]
  have hQmem : ∀ c ∈ post.data.reverse.dropWhile jsWs, (!(c == ']')) = true := by
    intro c hc
    have hcm : c ∈ post.data := by
      have := (List.dropWhile_sublist (l := post.data.reverse) jsWs).subset hc
      exact List.mem_reverse.mp this
    simp [(hpost c hcm).2]
  have hu : List.dropWhile (fun c => !(c == '['))
      (pre.data.dropWhile jsWs ++ (a.data ++ (post.data.reverse.dropWhile jsWs).reverse)) =
      a.data ++ (post.data.reverse.dropWhile jsWs).reverse := by
    rw [dropWhile_append_all _ _ _ hPmem]
    exact dropWhile_eq_self_of_head (head?_append_of_head _ hhead) (by decide)
  have hv : bracketSlice
      (pre.data.dropWhile jsWs ++ a.data ++ (post.data.reverse.dropWhile jsWs).reverse) =
      some a.data := by
    unfold bracketSlice
    rw [List.append_assoc, hu]
    rw [show (a.data ++ (post.data.reverse.dropWhile jsWs).reverse).reverse =
        post.data.reverse.dropWhile jsWs ++ a.data.reverse by simp [List.reverse_append]]
    rw [dropWhile_append_all _ _ _ hQmem]
    rw [dropWhile_eq_self_of_head hrevA (by decide)]
    rw [List.reverse_reverse]
    rw [if_pos hlen]
  have hC2 : extractToolCalls (pre ++ a ++ post) = items.filterMap callOfItemDirect := by
    simp only [extractToolCalls, hdata, hW, hv, hparse]
  rw [hC2, hC1]

/-- C7 witness: a rendered two-element tool-call array, bare and wrapped in
prose. -/
theorem extractToolCalls_roundtrip_witness :
    extractToolCalls (renderJson (Json.arr
      [Json.obj [("tool", Json.str "reply"), ("data", Json.obj [("message", Json.str "hi")])],
       Json.obj [("tool", Json.str "finish"), ("params", Json.obj [])]])) =
      [⟨Json.str "reply", Json.obj [("message", Json.str "hi")]⟩,
       ⟨Json.str "finish", Json.obj []⟩] ∧
    extractToolCalls ("Sure thing: " ++ renderJson (Json.arr
      [Json.obj [("tool", Json.str "reply"), ("data", Json.obj [("message", Json.str "hi")])],
       Json.obj [("tool", Json.str "finish"), ("params", Json.obj [])]]) ++ " done.") =
      extractToolCalls (renderJson (Json.arr
        [Json.obj [("tool", Json.str "reply"), ("data", Json.obj [("message", Json.str "hi")])],
         Json.obj [("tool", Json.str "finish"), ("params", Json.obj [])]])) := by
  have h := extractToolCalls_roundtrip
    (renderJson (Json.arr
      [Json.obj [("tool", Json.str "reply"), ("data", Json.obj [("message", Json.str "hi")])],
       Json.obj [("tool", Json.str "finish"), ("params", Json.obj [])]]))
    "Sure thing: " " done."
    [Json.obj [("tool", Json.str "reply"), ("data", Json.obj [("message", Json.str "hi")])],
     Json.obj [("tool", Json.str "finish"), ("params", Json.obj [])]]
    (by decide) (by decide) (by decide)
    (fun item hi => by fin_cases hi <;> decide)
    (fun c hc => by fin_cases hc <;> exact ⟨by decide, by decide⟩)
    (fun c hc => by fin_cases hc <;> exact ⟨by decide, by decide⟩)
  exact ⟨h.1, h.2⟩

end GeminiHelper
